import Mathlib

/-!
Verification of the availability engine of the Reservo MCP server
(src/server.py).

Shallow embedding conventions:

* Calendar dates, once parsed, are used by the engine only through their
  linear order and the successor operation (plus one day); we therefore
  embed a parsed calendar date as a natural number (its ordinal day
  number).  Where a concrete scenario names real dates inside a single
  month, the date 2024-03-d is encoded as the number d.
* The month-coverage computation of the range check inspects the year,
  month and day fields of the parsed dates, so for that part dates are
  embedded as a record of those three fields, `YMDate`, compared
  lexicographically exactly as Python datetimes compare.
* Python exceptions raised by `datetime.strptime` on malformed input are
  embedded by giving the tool functions `Option` date arguments: `none`
  stands for an unparseable date string, and the `except ValueError`
  branch of the source becomes the `none` case.
* The reservation fetch collaborator is external (network); the engine
  functions receive the fetched reservation list as an argument, and the
  month-coverage loop that drives the fetch is modelled separately by
  `months_to_check`.
-/

/-- A reservation record as fetched from the backend, with its dates
already parsed to ordinal day numbers (source: fields `reservationId`,
`bookedBy`, `startDate`, `endDate`, `createdAt`). -/
structure Reservation where
  reservationId : Nat
  bookedBy : String
  startDate : Nat
  endDate : Nat
  createdAt : String
deriving DecidableEq

/-- A date period as emitted in `available_periods` and
`requested_period` (fields `start_date`, `end_date`). -/
structure Period where
  start_date : Nat
  end_date : Nat
deriving DecidableEq

/-- Result shape of `check_date_availability`: an error dictionary, an
occupied answer carrying the first matching reservation, or an available
answer. -/
inductive SingleResult where
  | error (msg : String)
  | occupied (date : Nat) (r : Reservation)
  | availableOn (date : Nat)
deriving DecidableEq

/-- Result shape of `check_date_range_availability`: an error dictionary,
the fully-available dictionary (which carries no `conflicts` and no
`available_periods` field), or the conflict dictionary with both lists. -/
inductive RangeResult where
  | error (msg : String)
  | fullyAvailable (requested_period : Period)
  | hasConflicts (requested_period : Period) (conflicts : List Reservation)
      (available_periods : List Period)
deriving DecidableEq

/-- The half-open membership test `start_date <= d < end_date` used at
line 58 and lines 163/179 of the source. -/
def covers (r : Reservation) (d : Nat) : Bool :=
  decide (r.startDate ≤ d ∧ d < r.endDate)

/-- Embedding of `check_date_availability` (src/server.py lines 35-86)
after the month fetch: scan the fetched reservations in order and return
the first one whose half-open interval contains the date; `none` as the
date argument is a failed parse and takes the `ValueError` branch. -/
def check_date_availability (date : Option Nat) (reservations : List Reservation) :
    SingleResult :=
  match date with
  | none => .error "Invalid date format. Use YYYY-MM-DD format."
  | some check_date =>
    match reservations.find? (fun r => covers r check_date) with
    | some r => .occupied check_date r
    | none => .availableOn check_date

/-- The overlap test of line 130 of the source:
`start_dt.date() < res_end and end_dt.date() > res_start`. -/
def overlapsQuery (start_dt end_dt : Nat) (r : Reservation) : Bool :=
  decide (start_dt < r.endDate ∧ end_dt > r.startDate)

/-- The conflict-collection loop of lines 124-137: keep every fetched
reservation that overlaps the query range, in fetch order. -/
def findConflicts (start_dt end_dt : Nat) (rs : List Reservation) : List Reservation :=
  rs.filter (overlapsQuery start_dt end_dt)

/-- Whether some conflict covers the day `d` (the inner loops at lines
159-166 and 175-181 only use the boolean outcome here). -/
def isCovered (conflicts : List Reservation) (d : Nat) : Bool :=
  conflicts.any (fun c => covers c d)

/-- The first conflict covering `d`, in list order: the
`blocking_reservation` computed by the loop at lines 159-166. -/
def findBlocking (conflicts : List Reservation) (d : Nat) : Option Reservation :=
  conflicts.find? (fun c => covers c d)

/-- The inner extension loop of lines 170-186 with an explicit fuel
counter: starting from a free day, keep extending `period_end` by one day
while the next day is below the query end and not covered by any
conflict. -/
def extendRunAux (end_dt : Nat) (conflicts : List Reservation) :
    Nat → Nat → Nat
  | 0, period_end => period_end
  | fuel + 1, period_end =>
    if period_end < end_dt then
      if isCovered conflicts (period_end + 1) then period_end
      else extendRunAux end_dt conflicts fuel (period_end + 1)
    else period_end

/-- The inner extension loop of lines 170-186: the loop advances
`period_end` by one each iteration and stops at `end_dt`, so fuel
`end_dt - period_end` runs it to completion. -/
def extendRun (end_dt : Nat) (conflicts : List Reservation) (period_end : Nat) : Nat :=
  extendRunAux end_dt conflicts (end_dt - period_end) period_end

/-- The outer free-interval scan of lines 151-197, with an explicit fuel
counter bounding the number of loop iterations; `none` means the fuel ran
out before the cursor reached `end_dt` (the theorem about termination
shows fuel `end_dt - current_date` always suffices). -/
def scanAux (end_dt : Nat) (conflicts : List Reservation) :
    Nat → Nat → Option (List Period)
  | 0, current_date => if current_date < end_dt then none else some []
  | fuel + 1, current_date =>
    if current_date < end_dt then
      match findBlocking conflicts current_date with
      | some b => scanAux end_dt conflicts fuel b.endDate
      | none =>
        let period_end := extendRun end_dt conflicts current_date
        match scanAux end_dt conflicts fuel (period_end + 1) with
        | some rest => some (⟨current_date, period_end⟩ :: rest)
        | none => none
    else some []

/-- Embedding of `check_date_range_availability` (src/server.py lines
89-218) after the month fetches: validate the range, collect conflicts,
and when conflicts exist run the free-interval scan.  The fetched
reservations of all covered months arrive concatenated in
`all_reservations`; `none` date arguments are failed parses. -/
def check_date_range_availability (start_date end_date : Option Nat)
    (all_reservations : List Reservation) : RangeResult :=
  match start_date, end_date with
  | some start_dt, some end_dt =>
    if start_dt ≥ end_dt then .error "Start date must be before end date"
    else
      let conflicts := findConflicts start_dt end_dt all_reservations
      if conflicts.isEmpty then
        .fullyAvailable ⟨start_dt, end_dt⟩
      else
        .hasConflicts ⟨start_dt, end_dt⟩ conflicts
          ((scanAux end_dt conflicts (end_dt - start_dt) start_dt).getD [])
  | _, _ => .error "Invalid date format. Use YYYY-MM-DD format."

/-- A parsed datetime restricted to the fields the month-coverage loop
reads: year, month and day. -/
structure YMDate where
  year : Nat
  month : Nat
  day : Nat
deriving DecidableEq

/-- Lexicographic comparison of dates, as Python compares datetimes. -/
def dateLe (a b : YMDate) : Bool :=
  decide (a.year < b.year ∨ (a.year = b.year ∧
    (a.month < b.month ∨ (a.month = b.month ∧ a.day ≤ b.day))))

/-- Strict lexicographic comparison of dates. -/
def dateLt (a b : YMDate) : Bool :=
  decide (a.year < b.year ∨ (a.year = b.year ∧
    (a.month < b.month ∨ (a.month = b.month ∧ a.day < b.day))))

/-- The month-collection loop of lines 109-116: starting from the first
of the query start month, record `(year, month)` pairs and step to the
next month (wrapping December) while the first-of-month cursor is at most
`end_dt`.  The fuel counter bounds the iterations; the caller passes
enough fuel for the whole walk. -/
def monthsLoop (end_dt : YMDate) : Nat → Nat → Nat → List (Nat × Nat)
  | _, _, 0 => []
  | y, m, fuel + 1 =>
    if dateLe ⟨y, m, 1⟩ end_dt then
      (y, m) :: (if m = 12 then monthsLoop end_dt (y + 1) 1 fuel
                 else monthsLoop end_dt y (m + 1) fuel)
    else []

/-- The `months_to_check` collection of lines 108-116: the `(year, month)`
pairs whose reservations are fetched for a range query; the source stores
them in a set and fetches once per element, which the characterisation
theorems capture by membership plus `Nodup` of this list. -/
def months_to_check (start_dt end_dt : YMDate) : List (Nat × Nat) :=
  monthsLoop end_dt start_dt.year start_dt.month
    (12 * end_dt.year + end_dt.month + 2)

/-- A parsed `YYYY-MM-DD` date has month 1..12 and day at least 1. -/
def validDate (d : YMDate) : Prop :=
  1 ≤ d.month ∧ d.month ≤ 12 ∧ 1 ≤ d.day

instance (d : YMDate) : Decidable (validDate d) := by
  unfold validDate; infer_instance

/-- The conflict of the spec's concrete scenario: reservation id 1 from
2024-03-05 to 2024-03-10, dates 2024-03-d encoded as d. -/
def res1 : Reservation := ⟨1, "guest", 5, 10, "c"⟩

/-- A degenerate reservation whose parsed start and end dates coincide. -/
def degRes : Reservation := ⟨7, "guest", 5, 5, "c"⟩

lemma find?_of_forall_not {α : Type} {p : α → Bool} :
    ∀ (l1 : List α) (r : α) (l2 : List α), (∀ x ∈ l1, p x = false) → p r = true →
      (l1 ++ r :: l2).find? p = some r := by
  intro l1
  induction l1 with
  | nil => intro r l2 _ hr; simp [List.find?_cons_of_pos, hr]
  | cons x l1 ih =>
    intro r l2 h hr
    have hx : p x = false := h x (by simp)
    simp only [List.cons_append]
    rw [List.find?_cons_of_neg _ (by simp [hx])]
    exact ih r l2 (fun y hy => h y (by simp [hy])) hr

/-- C4: a reservation enters the conflict list exactly when
`queryStart < reservation.end` and `queryEnd > reservation.start`; in
particular a reservation ending exactly at the query start, or starting
exactly at the query end, is never a conflict. -/
theorem mem_findConflicts_iff (start_dt end_dt : Nat) (rs : List Reservation)
    (r : Reservation) :
    (r ∈ findConflicts start_dt end_dt rs ↔
      r ∈ rs ∧ r.startDate < end_dt ∧ r.endDate > start_dt)
    ∧ (r.endDate = start_dt → r ∉ findConflicts start_dt end_dt rs)
    ∧ (r.startDate = end_dt → r ∉ findConflicts start_dt end_dt rs) := by
  have hmem : r ∈ findConflicts start_dt end_dt rs ↔
      r ∈ rs ∧ r.startDate < end_dt ∧ r.endDate > start_dt := by
    simp only [findConflicts, overlapsQuery, List.mem_filter, decide_eq_true_eq]
    tauto
  refine ⟨hmem, ?_, ?_⟩
  · intro hend hc
    have := hmem.mp hc
    omega
  · intro hstart hc
    have := hmem.mp hc
    omega

/-- C4 witness: a reservation ending exactly at the query start is not a
conflict of the query, at the concrete boundary instance. -/
theorem mem_findConflicts_iff_witness :
    res1 ∉ findConflicts 10 20 [res1] :=
  (mem_findConflicts_iff 10 20 [res1] res1).2.1 rfl

/-- C6: a range query with parsed dates and queryStart at or after
queryEnd yields the validation-error shape, and a failed date parse
(modelled by a `none` argument) yields the error shape for both tools. -/
theorem validation_error_shapes (start_dt end_dt : Nat) (rs : List Reservation)
    (d : Option Nat) :
    (start_dt ≥ end_dt →
      check_date_range_availability (some start_dt) (some end_dt) rs
        = .error "Start date must be before end date")
    ∧ (check_date_range_availability none d rs
        = .error "Invalid date format. Use YYYY-MM-DD format.")
    ∧ (check_date_range_availability d none rs
        = .error "Invalid date format. Use YYYY-MM-DD format.")
    ∧ (check_date_availability none rs
        = .error "Invalid date format. Use YYYY-MM-DD format.") := by
  refine ⟨?_, ?_, ?_, ?_⟩
  · intro h
    simp [check_date_range_availability, h]
  · cases d <;> rfl
  · cases d <;> rfl
  · rfl

/-- C6 witness: the validation error at the concrete inverted range
5 ≥ 3 with one reservation fetched. -/
theorem validation_error_shapes_witness :
    check_date_range_availability (some 5) (some 3) [res1]
      = .error "Start date must be before end date" :=
  (validation_error_shapes 5 3 [res1] (some 7)).1 (by decide)

/-- C8: when no fetched reservation overlaps the query range, the range
check returns the fully-available shape carrying only the requested
period — the constructor has no conflicts and no available-periods
field. -/
theorem fully_available_shape (start_dt end_dt : Nat) (rs : List Reservation)
    (hlt : start_dt < end_dt)
    (hfree : ∀ r ∈ rs, ¬(r.startDate < end_dt ∧ r.endDate > start_dt)) :
    check_date_range_availability (some start_dt) (some end_dt) rs
      = .fullyAvailable ⟨start_dt, end_dt⟩ := by
  have hconf : findConflicts start_dt end_dt rs = [] := by
    simp only [findConflicts, List.filter_eq_nil_iff, overlapsQuery, decide_eq_true_eq]
    intro r hr hcontra
    exact hfree r hr ⟨hcontra.2, hcontra.1⟩
  simp [check_date_range_availability, Nat.not_le.mpr hlt, hconf]

/-- C8 witness: the query 1..15 with a single reservation 20..25 lying
beyond the range is fully available. -/
theorem fully_available_shape_witness :
    check_date_range_availability (some 1) (some 15) [⟨2, "guest", 20, 25, "c"⟩]
      = .fullyAvailable ⟨1, 15⟩ :=
  fully_available_shape 1 15 [⟨2, "guest", 20, 25, "c"⟩] (by decide)
    (by decide)

/-- C7: the single-date check reports the first fetched reservation whose
half-open interval contains the date, and reports available when no
fetched reservation contains it. -/
theorem check_date_availability_spec (d : Nat) (rs : List Reservation) :
    ((∀ r ∈ rs, ¬(r.startDate ≤ d ∧ d < r.endDate)) →
      check_date_availability (some d) rs = .availableOn d)
    ∧ (∀ (l1 : List Reservation) (r : Reservation) (l2 : List Reservation),
        rs = l1 ++ r :: l2 →
        (∀ x ∈ l1, ¬(x.startDate ≤ d ∧ d < x.endDate)) →
        r.startDate ≤ d → d < r.endDate →
        check_date_availability (some d) rs = .occupied d r) := by
  constructor
  · intro h
    have hnone : rs.find? (fun r => covers r d) = none := by
      rw [List.find?_eq_none]
      intro x hx
      simp only [covers, decide_eq_true_eq]
      exact h x hx
    simp [check_date_availability, hnone]
  · intro l1 r l2 hsplit h1 hs he
    have hfound : rs.find? (fun r => covers r d) = some r := by
      rw [hsplit]
      refine find?_of_forall_not l1 r l2 ?_ ?_
      · intro x hx
        simp only [covers, decide_eq_false_iff_not, decide_eq_true_eq]
        exact h1 x hx
      · simp only [covers, decide_eq_true_eq]
        exact ⟨hs, he⟩
    simp [check_date_availability, hfound]

/-- C7 witness: with a non-covering reservation first and a covering one
second, day 7 is reported occupied by the second reservation; and day 7
with no covering reservation is reported available. -/
theorem check_date_availability_spec_witness :
    check_date_availability (some 7) [⟨2, "guest", 20, 25, "c"⟩, res1]
      = .occupied 7 res1
    ∧ check_date_availability (some 7) [⟨2, "guest", 20, 25, "c"⟩]
      = .availableOn 7 :=
  ⟨(check_date_availability_spec 7 [⟨2, "guest", 20, 25, "c"⟩, res1]).2
      [⟨2, "guest", 20, 25, "c"⟩] res1 [] rfl (by decide) (by decide) (by decide),
   (check_date_availability_spec 7 [⟨2, "guest", 20, 25, "c"⟩]).1 (by decide)⟩

/-- C1: evaluating the range check at the spec's concrete scenario
(reservation [5,10), query 1..15, with 2024-03-d encoded as d): the code
returns the first free period with end date 4 — the last free day, not
the conflict's start date 5 that the spec's half-open reading demands. -/
theorem range_scenario_eval :
    check_date_range_availability (some 1) (some 15) [res1]
      = .hasConflicts ⟨1, 15⟩ [res1] [⟨1, 4⟩, ⟨10, 15⟩] := by
  decide

/-- C2: at the same scenario, day 4 lies inside the query range [1,15)
but is covered neither by any emitted available period nor by the
conflict clipped to the query, all read as half-open intervals — the
decomposition leaves a gap and the tiling invariant fails. -/
theorem range_tiling_gap_eval :
    check_date_range_availability (some 1) (some 15) [res1]
      = .hasConflicts ⟨1, 15⟩ [res1] [⟨1, 4⟩, ⟨10, 15⟩]
    ∧ ((1 : Nat) ≤ 4 ∧ (4 : Nat) < 15)
    ∧ (∀ p ∈ [(⟨1, 4⟩ : Period), ⟨10, 15⟩], ¬(p.start_date ≤ 4 ∧ 4 < p.end_date))
    ∧ (∀ r ∈ [res1], ¬(max r.startDate 1 ≤ 4 ∧ 4 < min r.endDate 15)) := by
  decide

/-- C3 counterexample: a degenerate reservation (equal parsed start and
end dates) is reported in the conflicts list of a range query, because
the overlap test `queryStart < res.end and queryEnd > res.start` does not
require `res.start < res.end`. -/
theorem degenerate_conflict_counterexample :
    degRes.endDate ≤ degRes.startDate
    ∧ check_date_range_availability (some 1) (some 15) [degRes]
        = .hasConflicts ⟨1, 15⟩ [degRes] [⟨1, 15⟩] := by
  decide

/-- C3 amended: a degenerate or inverted reservation never covers any
date, so it is never the occupying reservation of the single-date check
and never the blocking reservation of the range scan — but it can still
appear in the conflicts list (see the counterexample). -/
theorem degenerate_never_matches (r : Reservation)
    (hdeg : r.endDate ≤ r.startDate) :
    (∀ d, covers r d = false)
    ∧ (∀ d rs, check_date_availability (some d) rs ≠ .occupied d r)
    ∧ (∀ d conflicts, findBlocking conflicts d ≠ some r) := by
  have hcov : ∀ d, covers r d = false := by
    intro d
    simp only [covers, decide_eq_false_iff_not]
    omega
  refine ⟨hcov, ?_, ?_⟩
  · intro d rs hc
    simp only [check_date_availability] at hc
    cases hfind : rs.find? (fun x => covers x d) with
    | none => rw [hfind] at hc; cases hc
    | some x =>
      rw [hfind] at hc
      injection hc with _ hxr
      subst hxr
      have := List.find?_some hfind
      rw [hcov d] at this
      cases this
  · intro d conflicts hfb
    have := List.find?_some hfb
    rw [hcov d] at this
    cases this

/-- C3 amended, witness: the concrete degenerate reservation covers
nothing and never occupies a queried date. -/
theorem degenerate_never_matches_witness :
    covers degRes 3 = false
    ∧ check_date_availability (some 5) [degRes] ≠ .occupied 5 degRes :=
  ⟨(degenerate_never_matches degRes (by decide)).1 3,
   (degenerate_never_matches degRes (by decide)).2.1 5 [degRes]⟩

lemma extendRunAux_ge (end_dt : Nat) (cs : List Reservation) :
    ∀ fuel pe, pe ≤ extendRunAux end_dt cs fuel pe := by
  intro fuel
  induction fuel with
  | zero => intro pe; simp [extendRunAux]
  | succ n ih =>
    intro pe
    simp only [extendRunAux]
    split
    · split
      · exact Nat.le_refl _
      · exact Nat.le_trans (Nat.le_succ pe) (ih (pe + 1))
    · exact Nat.le_refl _

lemma scanAux_isSome (end_dt : Nat) (cs : List Reservation) :
    ∀ fuel c, end_dt - c ≤ fuel → (scanAux end_dt cs fuel c).isSome = true := by
  intro fuel
  induction fuel with
  | zero =>
    intro c h
    simp only [scanAux]
    split
    · rename_i hc; exact absurd hc (by omega)
    · simp
  | succ n ih =>
    intro c h
    simp only [scanAux]
    split
    · rename_i hc
      cases hfb : findBlocking cs c with
      | some b =>
        have hb : covers b c = true := by
          have := List.find?_some hfb
          simpa using this
        have hbe : c < b.endDate := by
          simp only [covers, decide_eq_true_eq] at hb
          exact hb.2
        exact ih b.endDate (by omega)
      | none =>
        have hge : c ≤ extendRun end_dt cs c :=
          extendRunAux_ge end_dt cs (end_dt - c) c
        have hrec := ih (extendRun end_dt cs c + 1) (by omega)
        cases hrec' : scanAux end_dt cs n (extendRun end_dt cs c + 1) with
        | some rest => simp [hrec']
        | none => rw [hrec'] at hrec; cases hrec
    · simp

/-- C9: the free-interval scan terminates for every conflict list,
degenerate intervals included — fuel equal to the distance from the
cursor to the query end always suffices, because each iteration strictly
advances the cursor (a blocking conflict's end exceeds the cursor it
covers, and a free run advances past its emitted end). -/
theorem scan_terminates (end_dt : Nat) (conflicts : List Reservation)
    (current_date : Nat) :
    (scanAux end_dt conflicts (end_dt - current_date) current_date).isSome = true :=
  scanAux_isSome end_dt conflicts (end_dt - current_date) current_date
    (Nat.le_refl _)

lemma dateLe_first_iff (y m : Nat) (e : YMDate) (hm1 : 1 ≤ m) (hm2 : m ≤ 12)
    (he1 : 1 ≤ e.month) (he2 : e.month ≤ 12) (hd : 1 ≤ e.day) :
    dateLe ⟨y, m, 1⟩ e = true ↔ 12 * y + m ≤ 12 * e.year + e.month := by
  simp only [dateLe, decide_eq_true_eq]
  omega

lemma monthsLoop_spec (e : YMDate) (he1 : 1 ≤ e.month) (he2 : e.month ≤ 12)
    (hd : 1 ≤ e.day) :
    ∀ fuel y m, 1 ≤ m → m ≤ 12 → 12 * e.year + e.month + 1 - (12 * y + m) ≤ fuel →
      (monthsLoop e y m fuel).map (fun p => 12 * p.1 + p.2)
          = List.range' (12 * y + m) (12 * e.year + e.month + 1 - (12 * y + m))
      ∧ ∀ p ∈ monthsLoop e y m fuel, 1 ≤ p.2 ∧ p.2 ≤ 12 := by
  intro fuel
  induction fuel with
  | zero =>
    intro y m hm1 hm2 hfuel
    have h0 : 12 * e.year + e.month + 1 - (12 * y + m) = 0 := by omega
    simp [monthsLoop, h0]
  | succ n ih =>
    intro y m hm1 hm2 hfuel
    cases hguard : dateLe ⟨y, m, 1⟩ e with
    | false =>
      have hg : ¬ 12 * y + m ≤ 12 * e.year + e.month := by
        intro hle
        rw [(dateLe_first_iff y m e hm1 hm2 he1 he2 hd).mpr hle] at hguard
        cases hguard
      have h0 : 12 * e.year + e.month + 1 - (12 * y + m) = 0 := by omega
      simp [monthsLoop, hguard, h0]
    | true =>
      have hg : 12 * y + m ≤ 12 * e.year + e.month :=
        (dateLe_first_iff y m e hm1 hm2 he1 he2 hd).mp hguard
      have hlen : 12 * e.year + e.month + 1 - (12 * y + m)
          = (12 * e.year + e.month + 1 - (12 * y + m + 1)) + 1 := by omega
      by_cases h12 : m = 12
      · subst h12
        have ihspec := ih (y + 1) 1 (by omega) (by omega) (by omega)
        have harith : 12 * (y + 1) + 1 = 12 * y + 12 + 1 := by omega
        rw [harith] at ihspec
        constructor
        · simp only [monthsLoop, hguard, if_true, List.map_cons, reduceIte]
          rw [hlen, List.range'_succ]
          exact congrArg (List.cons (12 * y + 12)) ihspec.1
        · intro p hp
          simp only [monthsLoop, hguard, if_true, reduceIte, List.mem_cons] at hp
          rcases hp with rfl | hp
          · exact ⟨by omega, by omega⟩
          · exact ihspec.2 p hp
      · have ihspec := ih y (m + 1) (by omega) (by omega) (by omega)
        constructor
        · simp only [monthsLoop, hguard, if_true, h12, if_false, List.map_cons,
            reduceIte]
          rw [hlen, List.range'_succ]
          exact congrArg (List.cons (12 * y + m)) ihspec.1
        · intro p hp
          simp only [monthsLoop, hguard, if_true, h12, if_false, reduceIte,
            List.mem_cons] at hp
          rcases hp with rfl | hp
          · exact ⟨hm1, hm2⟩
          · exact ihspec.2 p hp

lemma months_to_check_mem (s e : YMDate) (hs : validDate s) (he : validDate e) :
    (∀ p, p ∈ months_to_check s e ↔
      (1 ≤ p.2 ∧ p.2 ≤ 12 ∧ 12 * s.year + s.month ≤ 12 * p.1 + p.2
        ∧ 12 * p.1 + p.2 ≤ 12 * e.year + e.month))
    ∧ (months_to_check s e).Nodup := by
  obtain ⟨hs1, hs2, _⟩ := hs
  obtain ⟨he1, he2, hed⟩ := he
  have hspec := monthsLoop_spec e he1 he2 hed (12 * e.year + e.month + 2)
      s.year s.month hs1 hs2 (by omega)
  have hunf : months_to_check s e
      = monthsLoop e s.year s.month (12 * e.year + e.month + 2) := rfl
  rw [← hunf] at hspec
  have hmap := hspec.1
  have hbound := hspec.2
  constructor
  · intro p
    constructor
    · intro hp
      have hmem : 12 * p.1 + p.2 ∈ (months_to_check s e).map
          (fun p => 12 * p.1 + p.2) := List.mem_map_of_mem _ hp
      rw [hmap, List.mem_range'_1] at hmem
      have := hbound p hp
      exact ⟨this.1, this.2, by omega, by omega⟩
    · intro ⟨hp1, hp2, hp3, hp4⟩
      have hmem : 12 * p.1 + p.2 ∈ (months_to_check s e).map
          (fun p => 12 * p.1 + p.2) := by
        rw [hmap, List.mem_range'_1]
        omega
      rw [List.mem_map] at hmem
      obtain ⟨q, hq, hqeq⟩ := hmem
      have hqb := hbound q hq
      have : q = p := by
        obtain ⟨q1, q2⟩ := q
        obtain ⟨p1, p2⟩ := p
        simp only [Prod.mk.injEq]
        simp only at hqeq hqb hp1 hp2
        omega
      rw [← this]
      exact hq
  · have : ((months_to_check s e).map (fun p => 12 * p.1 + p.2)).Nodup := by
      rw [hmap]
      exact List.nodup_range' _ _
    exact this.of_map _

/-- C5: for a valid range query, the fetched `(year, month)` pairs are
exactly the calendar months from the month containing the query start
through the month containing the query end, with no duplicates (the
source stores them in a set, so each pair is fetched exactly once). -/
theorem months_fetched_spec (s e : YMDate) (hs : validDate s) (he : validDate e)
    (_hlt : dateLt s e = true) :
    (∀ p, p ∈ months_to_check s e ↔
      (1 ≤ p.2 ∧ p.2 ≤ 12 ∧ 12 * s.year + s.month ≤ 12 * p.1 + p.2
        ∧ 12 * p.1 + p.2 ≤ 12 * e.year + e.month))
    ∧ (months_to_check s e).Nodup :=
  months_to_check_mem s e hs he

/-- C5 witness: the query from 2024-11-20 to 2025-02-03 fetches exactly
the months 2024-11, 2024-12, 2025-01 and 2025-02, once each. -/
theorem months_fetched_spec_witness :
    (∀ p, p ∈ months_to_check ⟨2024, 11, 20⟩ ⟨2025, 2, 3⟩ ↔
      (1 ≤ p.2 ∧ p.2 ≤ 12 ∧ 12 * 2024 + 11 ≤ 12 * p.1 + p.2
        ∧ 12 * p.1 + p.2 ≤ 12 * 2025 + 2))
    ∧ (months_to_check ⟨2024, 11, 20⟩ ⟨2025, 2, 3⟩).Nodup :=
  months_fetched_spec ⟨2024, 11, 20⟩ ⟨2025, 2, 3⟩ (by decide) (by decide)
    (by decide)

/-- C10: when the query end falls exactly on the first day of a month,
the fetched months include the month containing the query end itself —
the loop keeps the first-of-month cursor while it is at most `end_dt`,
so the extra month in which only the excluded end date lies is still
fetched. -/
theorem end_month_fetched (s e : YMDate) (hs : validDate s)
    (he1 : 1 ≤ e.month) (he2 : e.month ≤ 12) (hday : e.day = 1)
    (hlt : dateLt s e = true) :
    (e.year, e.month) ∈ months_to_check s e := by
  have he : validDate e := ⟨he1, he2, by omega⟩
  have hmem := (months_to_check_mem s e hs he).1 (e.year, e.month)
  refine hmem.mpr ⟨he1, he2, ?_, Nat.le_refl _⟩
  simp only [dateLt, decide_eq_true_eq] at hlt
  obtain ⟨hs1, hs2, _⟩ := hs
  omega

/-- C10 witness: the query from 2024-03-15 to 2024-04-01 fetches the
month 2024-04 containing the excluded end date. -/
theorem end_month_fetched_witness :
    ((2024, 4) : Nat × Nat) ∈ months_to_check ⟨2024, 3, 15⟩ ⟨2024, 4, 1⟩ :=
  end_month_fetched ⟨2024, 3, 15⟩ ⟨2024, 4, 1⟩ (by decide) (by decide)
    (by decide) rfl (by decide)

